import Mathlib

/-!
Verification of the file-share session core of the chef repository
(src/src-tauri/src/commands/file_share.rs), shallowly embedded in Lean.

Modelling conventions:
* Rust `String` values are Lean `String`; byte-oriented operations are
  modelled at the level of `String.data : List Char` (all strings the
  claims touch are handled character-wise exactly as the source does).
* `Uuid::new_v4()` (a fresh random token per entry) is modelled by a
  counter threaded through manifest construction; ids stay opaque.
* Filesystem contents are modelled by an explicit tree (`FsTree`) and an
  open/read oracle `String → Option (List Nat)` for request time.
* The async runtime is modelled by a small-step trace: `startFn` returns
  the result, the final manager state and the list of intermediate
  manager states (bound listeners and running server tasks by id).
-/

namespace FileShare

/-! ### Character and string helpers -/

/-- Decimal digit character, used to model integer formatting. -/
def digitChar (d : Nat) : Char :=
  if d = 0 then '0' else if d = 1 then '1' else if d = 2 then '2' else if d = 3 then '3'
  else if d = 4 then '4' else if d = 5 then '5' else if d = 6 then '6' else if d = 7 then '7'
  else if d = 8 then '8' else '9'

/-- Fueled decimal rendering of a natural number (no leading zeros). -/
def natCharsAux : Nat → Nat → List Char
  | 0, _ => []
  | fuel + 1, n =>
    if n < 10 then [digitChar n] else natCharsAux fuel (n / 10) ++ [digitChar (n % 10)]

/-- Decimal digit string of a natural number, modelling Rust integer Display. -/
def natChars (n : Nat) : List Char := natCharsAux (n + 1) n

/-- String wrapper over `natChars`. -/
def natStr (n : Nat) : String := ⟨natChars n⟩

/-- One-character string. -/
def chStr (c : Char) : String := ⟨[c]⟩

/-- Models Rust `str::starts_with`: does `s` begin with `pat`? -/
def strStarts : List Char → List Char → Bool
  | [], _ => true
  | _ :: _, [] => false
  | p :: ps, c :: cs => p == c && strStarts ps cs

/-- Models Rust `str::contains` (substring search): does `pat` occur in `s`? -/
def listHas : List Char → List Char → Bool
  | pat, [] => pat.isEmpty
  | pat, c :: cs => strStarts pat (c :: cs) || listHas pat cs

/-- String-level wrapper: `u` starts with `pat` (Rust `u.starts_with(pat)`). -/
def urlStarts (u pat : String) : Bool := strStarts pat.data u.data

/-- String-level wrapper: `u` contains `pat` (Rust `u.contains(pat)`). -/
def urlContains (u pat : String) : Bool := listHas pat.data u.data

/-- Byte-wise lexicographic order on character lists, modelling the `Ord`
instance Rust string sorting uses (UTF-8 byte order coincides with code
point order). -/
def charListLe : List Char → List Char → Bool
  | [], _ => true
  | _ :: _, [] => false
  | a :: as, b :: bs =>
    if a.toNat < b.toNat then true else if b.toNat < a.toNat then false else charListLe as bs

/-- Lexicographic order on strings (model of Rust `String: Ord`). -/
def strLeB (s t : String) : Bool := charListLe s.data t.data

/-- Insert into a sorted list, auxiliary to `sortStrings`. -/
def insertSorted (x : String) : List String → List String
  | [] => [x]
  | y :: ys => if strLeB x y then x :: y :: ys else y :: insertSorted x ys

/-- Model of `Vec::sort` on strings (any stable comparison sort computes
the same sorted list, so insertion sort is an exact functional model). -/
def sortStrings (l : List String) : List String := l.foldr insertSorted []

/-- Model of `Vec::dedup`: remove consecutive duplicates. -/
def dedupConsec : List String → List String
  | [] => []
  | [x] => [x]
  | x :: y :: rest => if x = y then dedupConsec (y :: rest) else x :: dedupConsec (y :: rest)

/-- Replace every backslash by a forward slash, modelling the source
expression that replaces the backslash character pattern with a forward
slash (a single-character pattern replace is a character map). -/
def normalizeChars (cs : List Char) : List Char :=
  cs.map (fun c => if c = '\\' then '/' else c)

/-- String wrapper over `normalizeChars`. -/
def normalizeSeps (s : String) : String := ⟨normalizeChars s.data⟩

/-- Intercalate a separator between character lists. -/
def joinChars (sep : List Char) : List (List Char) → List Char
  | [] => []
  | [x] => x
  | x :: y :: rest => x ++ sep ++ joinChars sep (y :: rest)

/-- Join path components with a host separator character, modelling
`Path::to_string_lossy` on a relative path. -/
def joinSep (sep : Char) (comps : List String) : String :=
  ⟨joinChars [sep] (comps.map String.data)⟩

/-- ASCII uppercase model of Rust `str::to_uppercase` (the extension
strings it is applied to are ASCII). -/
def strUpper (s : String) : String := ⟨s.data.map Char.toUpper⟩

/-! ### Data model (file_share.rs lines 28-80) -/

/-- Manifest entry held by the HTTP server; models `struct ServerFile`.
The `mime` field models `MimeGuess::first_raw()`, the first guess of the
mime_guess database for the path (None when the database has no entry). -/
structure ServerFile where
  id : String
  display_name : String
  download_name : String
  size : Nat
  extension : Option String
  path : String
  mime : Option String
deriving DecidableEq, Repr

/-- Public metadata record; models `struct SharedFileMeta`. -/
structure SharedFileMeta where
  id : String
  display_name : String
  download_name : String
  size : Nat
  extension : Option String
deriving DecidableEq, Repr

/-- Public session descriptor; models `struct FileShareSession`. -/
structure FileShareSession where
  port : Nat
  addresses : List String
  primary_url : String
  files : List SharedFileMeta
deriving DecidableEq, Repr

/-- Internal active share; models `struct ActiveShare`. The spawned server
task and its bound listener are identified by `sid`. -/
structure ActiveShare where
  sid : Nat
  session : FileShareSession
deriving DecidableEq, Repr

/-- Manager state: the mutex-guarded slot plus the set of currently bound
listeners and currently running server tasks (by id), and a fresh-id
counter for newly spawned servers. -/
structure MgrState where
  slot : Option ActiveShare
  listeners : List Nat
  tasks : List Nat
  nextSid : Nat
deriving DecidableEq, Repr

/-- Projection from a manifest entry to its public metadata, modelling the
`files_meta` construction in `FileShareManager::start` (lines 162-171). -/
def metaOf (f : ServerFile) : SharedFileMeta :=
  ⟨f.id, f.display_name, f.download_name, f.size, f.extension⟩

/-! ### HTTP handlers (file_share.rs lines 361-465) -/

/-- Response body: either a short text message or a streamed file body. -/
inductive RespBody
  | text (msg : String)
  | stream (bytes : List Nat)
deriving DecidableEq, Repr

/-- Abstract HTTP response as the claims observe it. -/
structure HttpResponse where
  status : Nat
  contentType : Option String
  contentDisposition : Option String
  body : RespBody
deriving DecidableEq, Repr

/-- Models `sanitize_filename` (lines 439-447): path- and quote-unsafe
characters are replaced by underscores. -/
def sanitize_filename (input : String) : String :=
  ⟨input.data.map (fun ch =>
    if ch = '"' ∨ ch = '\\' ∨ ch = '/' ∨ ch = ':' ∨ ch = '*' ∨ ch = '?' ∨
       ch = '<' ∨ ch = '>' ∨ ch = '|' then '_' else ch)⟩

/-- Models `http::HeaderValue::from_str` validity: every byte must be
printable (32..=255 except DEL 127) or TAB. Characters above 0x7F encode
to UTF-8 bytes that are all ≥ 0x80 and never 127, so this character-wise
check coincides with the byte-wise one. -/
def headerValueValid (s : String) : Bool :=
  s.data.all (fun c => c == '\t' || (32 ≤ c.toNat && c.toNat ≠ 127))

/-- Models `download_file` (lines 393-423): look the id up in the manifest,
open the source file, and build the response. Header insertions are
guarded by `HeaderValue::from_str` succeeding, exactly as in the source.
The 404 responses carry the text/plain content type axum attaches to a
`(StatusCode, &str)` response. -/
def download_file (files : List ServerFile) (file_id : String)
    (fsOpen : String → Option (List Nat)) : HttpResponse :=
  match files.find? (fun f => f.id == file_id) with
  | some f =>
    match fsOpen f.path with
    | some bytes =>
      let mime := f.mime.getD "application/octet-stream"
      let disposition := "attachment; filename=\"" ++ sanitize_filename f.download_name ++ "\""
      { status := 200
        contentType := if headerValueValid mime then some mime else none
        contentDisposition := if headerValueValid disposition then some disposition else none
        body := .stream bytes }
    | none =>
      ⟨404, some "text/plain; charset=utf-8", none, .text "文件不再可用，请在桌面端重新选择。"⟩
  | none =>
    ⟨404, some "text/plain; charset=utf-8", none, .text "你要找的文件不存在。"⟩

/-- Request handlers never mutate the manifest; this wrapper makes the
state-passing explicit so the invariance can be stated. -/
def downloadStep (files : List ServerFile) (file_id : String)
    (fsOpen : String → Option (List Nat)) : HttpResponse × List ServerFile :=
  (download_file files file_id fsOpen, files)

/-- Models `escape_html` (lines 425-437). -/
def escape_html (input : String) : String :=
  String.join (input.data.map (fun ch =>
    match ch with
    | '<' => "&lt;"
    | '>' => "&gt;"
    | '"' => "&quot;"
    | '\'' => "&#39;"
    | '&' => "&amp;"
    | c => chStr c))

/-- Per-entry description shown on the index page (lines 366-369); the
size formatter (`format_size`, floating-point presentation only) is passed
as a parameter. -/
def fileDescription (formatSize : Nat → String) (f : ServerFile) : String :=
  match f.extension with
  | some ext => strUpper ext ++ " · " ++ formatSize f.size
  | none => formatSize f.size

/-- One file card of the index page (lines 370-376); the literal segments
reproduce the Rust raw string, in which `\"` is a literal backslash
followed by a quote. -/
def fileCard (formatSize : Nat → String) (f : ServerFile) : String :=
  "<article class=\\\"file-card\\\"><div class=\\\"file-card__main\\\"><span class=\\\"file-card__icon\\\">📁</span><div><p class=\\\"file-name\\\">"
  ++ escape_html f.display_name
  ++ "</p><p class=\\\"file-desc\\\">"
  ++ escape_html (fileDescription formatSize f)
  ++ "</p></div></div><div class=\\\"file-meta\\\">"
  ++ formatSize f.size
  ++ "</div><a class=\\\"file-btn\\\" href=\\\"/files/"
  ++ f.id
  ++ "\\\" download><span>下载</span><span class=\\\"file-btn__icon\\\">⤓</span></a></article>"

/-- The concatenated file list markup (lines 362-379). -/
def file_list_markup (formatSize : Nat → String) (files : List ServerFile) : String :=
  String.join (files.map (fileCard formatSize))

/-- Modelled from the spec: the template file share/share-template.html is
not under src; the spec only requires an HTML page carrying the accent
color, file count, total size and file list placeholders. -/
def SHARE_PAGE_TEMPLATE : String :=
  "<html><head><title>__ACCENT__</title></head><body><p>__FILE_COUNT__ __TOTAL_SIZE__</p>__FILE_LIST__</body></html>"

/-- Models `serve_index` (lines 361-391): substitute the accent color, the
file count, the total size and the file list into the page template. -/
def serve_index (accent : String) (formatSize : Nat → String)
    (files : List ServerFile) : String :=
  let markup := file_list_markup formatSize files
  let total_files := natStr files.length
  let total_size := formatSize (files.map (fun f => f.size)).sum
  (((SHARE_PAGE_TEMPLATE.replace "__ACCENT__" accent).replace
      "__FILE_COUNT__" total_files).replace
      "__TOTAL_SIZE__" total_size).replace
      "__FILE_LIST__" markup

/-! ### Manifest builder (file_share.rs lines 247-327) -/

/-- Filesystem tree: a regular file with its size, or a directory with a
named child list (in directory-iteration order). -/
inductive FsTree
  | file (size : Nat)
  | dir (children : List (String × FsTree))

/-- One element of the path list passed to `start`, after the
`canonicalize`/`metadata` step of `build_server_files`: either the path is
unreadable (canonicalize or metadata fails, with the io error text), or it
resolves to a canonical path whose final component is `leafName` and whose
content is `tree`. Non-UTF-8 names are outside the model (names are
Lean strings). -/
inductive RawInput
  | unreadable (raw : String) (ioErr : String)
  | resolved (canonicalPath : String) (leafName : String) (tree : FsTree)

mutual

/-- Files found by `WalkDir` under a tree node, as (relative path
components, size) pairs, parent directories before their contents, in
directory order; directory entries themselves are filtered out by the
`file_type().is_file()` check. -/
def walkTree (pre : List String) : FsTree → List (List String × Nat)
  | .file sz => [(pre, sz)]
  | .dir es => walkList pre es

/-- Walk of a child list, auxiliary to `walkTree`. -/
def walkList (pre : List String) : List (String × FsTree) → List (List String × Nat)
  | [] => []
  | (n, t) :: rest => walkTree (pre ++ [n]) t ++ walkList pre rest

end

/-- Opaque id for the n-th entry; models `Uuid::new_v4()` as a fresh-token
supply indexed by a counter. -/
def uuidStr (n : Nat) : String := "uuid-" ++ natStr n

/-- Models Rust `Path::extension()` on a leaf file name: the text after
the last dot, unless there is no dot or the only dot is the leading
character. -/
def extOf (name : String) : Option String :=
  let cs := name.data
  let after := (cs.reverse.takeWhile (fun c => c ≠ '.')).reverse
  if after.length + 1 < cs.length then some ⟨after⟩ else none

/-- Entry pushed for an input that names a regular file (lines 257-264
together with `push_file_entry`): display name and download name are both
the leaf file name. -/
def mkFileEntry (mimeOf : String → Option String) (canon leaf : String)
    (sz : Nat) (n : Nat) : ServerFile :=
  { id := uuidStr n
    display_name := leaf
    download_name := leaf
    size := sz
    extension := extOf leaf
    path := canon
    mime := mimeOf canon }

/-- Entry pushed for one file found under a directory input (lines
274-286 together with `push_file_entry`): the relative path is rendered
with the host separator, backslashes are normalized to forward slashes,
and the display name is the directory label followed by the normalized
relative path. -/
def mkWalkEntry (sep : Char) (mimeOf : String → Option String)
    (canon label : String) (pr : List String × Nat) (n : Nat) : ServerFile :=
  let rel := joinSep sep pr.1
  let epath := canon ++ chStr sep ++ rel
  { id := uuidStr n
    display_name := label ++ "/" ++ normalizeSeps rel
    download_name := pr.1.getLastD ""
    size := pr.2
    extension := extOf (pr.1.getLastD "")
    path := epath
    mime := mimeOf epath }

/-- Sequentially push one entry per walked file, threading the id counter. -/
def stampWalk (sep : Char) (mimeOf : String → Option String)
    (canon label : String) : Nat → List (List String × Nat) → List ServerFile
  | _, [] => []
  | n, pr :: rest =>
    mkWalkEntry sep mimeOf canon label pr n :: stampWalk sep mimeOf canon label (n + 1) rest

/-- Loop body of `build_server_files` over the input list, accumulating
pushed entries and the id counter. -/
def buildLoop (sep : Char) (mimeOf : String → Option String) :
    List RawInput → List ServerFile → Nat → Except String (List ServerFile × Nat)
  | [], acc, n => .ok (acc, n)
  | .unreadable raw ioErr :: _, _, _ =>
    .error ("无法读取路径 " ++ raw ++ ": " ++ ioErr)
  | .resolved canon leaf (.file sz) :: rest, acc, n =>
    buildLoop sep mimeOf rest (acc ++ [mkFileEntry mimeOf canon leaf sz n]) (n + 1)
  | .resolved canon leaf (.dir es) :: rest, acc, n =>
    let walked := walkList [] es
    buildLoop sep mimeOf rest (acc ++ stampWalk sep mimeOf canon leaf n walked)
      (n + walked.length)

/-- Models `build_server_files` (lines 247-294): process every input, then
fail with the empty-selection error if no entry was produced. -/
def build_server_files (sep : Char) (mimeOf : String → Option String)
    (inputs : List RawInput) (n0 : Nat) : Except String (List ServerFile × Nat) :=
  match buildLoop sep mimeOf inputs [] n0 with
  | .error e => .error e
  | .ok (res, n1) =>
    if res.isEmpty then .error "所选项目中没有可分享的文件。" else .ok (res, n1)

/-! ### Address resolver (file_share.rs lines 329-359) -/

/-- Interface address: structured IPv4 octets or IPv6 segments. -/
inductive ModelIp
  | v4 (a b c d : Nat)
  | v6 (segs : List Nat)

/-- One network interface as `if_addrs` reports it. -/
structure ModelIface where
  ip : ModelIp

/-- Models `IpAddr::is_loopback`: 127.0.0.0/8 for IPv4, ::1 for IPv6. -/
def ipIsLoopback : ModelIp → Bool
  | .v4 a _ _ _ => a == 127
  | .v6 segs => segs == [0, 0, 0, 0, 0, 0, 0, 1]

/-- Hexadecimal digit character. -/
def hexDigitChar (d : Nat) : Char :=
  if d < 10 then digitChar d
  else if d = 10 then 'a' else if d = 11 then 'b' else if d = 12 then 'c'
  else if d = 13 then 'd' else if d = 14 then 'e' else 'f'

/-- Fueled hexadecimal rendering. -/
def hexCharsAux : Nat → Nat → List Char
  | 0, _ => []
  | fuel + 1, n =>
    if n < 16 then [hexDigitChar n] else hexCharsAux fuel (n / 16) ++ [hexDigitChar (n % 16)]

/-- Lowercase hexadecimal digit string of a natural number. -/
def hexChars (n : Nat) : List Char := hexCharsAux (n + 1) n

/-- Uncompressed colon-separated lowercase-hex rendering of IPv6 segments,
modelling `Ipv6Addr::to_string` (the Rust Display additionally compresses
the longest zero run; no claim depends on the exact body text, only on the
`http://[` prefix of the resulting URL). -/
def ipv6Body (segs : List Nat) : String :=
  ⟨joinChars [':'] (segs.map hexChars)⟩

/-- Models `format_ipv6` (lines 354-359). -/
def format_ipv6 (segs : List Nat) : String :=
  if segs.all (fun s => s == 0) then "::" else ipv6Body segs

/-- URL built for one IPv4 interface address (line 341). -/
def v4Url (a b c d p : Nat) : String :=
  "http://" ++ natStr a ++ "." ++ natStr b ++ "." ++ natStr c ++ "." ++ natStr d
    ++ ":" ++ natStr p

/-- The localhost fallback URL (line 331). -/
def localhostUrl (p : Nat) : String := "http://localhost:" ++ natStr p

/-- The 127.0.0.1 fallback URL (line 332). -/
def loopbackUrl (p : Nat) : String := "http://127.0.0.1:" ++ natStr p

/-- General shape of the URL built for an IPv6 interface address
(lines 342-345). -/
def v6UrlForm (body : String) (p : Nat) : String :=
  "http://[" ++ body ++ "]:" ++ natStr p

/-- URL built for one interface address (lines 340-346). -/
def urlOfIp (port : Nat) : ModelIp → String
  | .v4 a b c d => v4Url a b c d port
  | .v6 segs => v6UrlForm (format_ipv6 segs) port

/-- Models `collect_accessible_urls` (lines 329-352): the two loopback
fallbacks, then one URL per non-loopback interface address (when
enumeration succeeds), sorted and deduplicated. `ifaces = none` models
`if_addrs::get_if_addrs()` returning `Err`. -/
def collect_accessible_urls (port : Nat) (ifaces : Option (List ModelIface)) :
    List String :=
  let urls := [localhostUrl port, loopbackUrl port] ++
    (match ifaces with
     | none => []
     | some l => (l.filter (fun i => !(ipIsLoopback i.ip))).map (fun i => urlOfIp port i.ip))
  dedupConsec (sortStrings urls)

/-- Models the primary-URL selection inlined in `FileShareManager::start`
(lines 182-193): first URL with the `http://192.` prefix, else first URL
that mentions neither `127.0.0.1` nor `localhost`, else the 127.0.0.1
fallback. -/
def choosePrimary (addresses : List String) (port : Nat) : String :=
  match addresses.find? (fun u => urlStarts u "http://192.") with
  | some u => u
  | none =>
    match addresses.find? (fun u => !(urlContains u "127.0.0.1") && !(urlContains u "localhost")) with
    | some u => u
    | none => "http://127.0.0.1:" ++ natStr port

/-! ### Session manager (file_share.rs lines 150-245) -/

/-- Environment of one `start` call: host path separator, the mime_guess
database, the fresh-id supply origin, the outcome of the TCP bind, and the
outcome of interface enumeration. -/
structure StartEnv where
  hostSep : Char
  mimeOf : String → Option String
  idStart : Nat
  bindPort : Except String Nat
  ifaces : Option (List ModelIface)

instance (ε α : Type) [DecidableEq ε] [DecidableEq α] : DecidableEq (Except ε α) :=
  fun a b =>
  match a, b with
  | .error e, .error f => decidable_of_iff (e = f) (by simp)
  | .error _, .ok _ => isFalse (by simp)
  | .ok _, .error _ => isFalse (by simp)
  | .ok x, .ok y => decidable_of_iff (x = y) (by simp)

/-- Result of one `start` call: the returned value, the final manager
state, and the trace of manager states at each step of the call (initial
state, after bind, after spawn, after taking the old share out of the
slot, after its shutdown completes, after installing the new share). -/
structure StartOut where
  result : Except String FileShareSession
  final : MgrState
  trace : List MgrState
deriving DecidableEq, Repr

/-- Models `FileShareManager::start` (lines 151-229). Fallible steps
(empty check, manifest build, bind) happen before any state mutation; on
success the listener is bound and the server task spawned, then under the
lock the previous share (if any) is taken out, shut down synchronously
(its listener and task end), and the new share is installed. -/
def startFn (st : MgrState) (inputs : List RawInput) (env : StartEnv) : StartOut :=
  if inputs.isEmpty then ⟨.error "请选择至少一个需要分享的文件。", st, [st]⟩
  else
    match build_server_files env.hostSep env.mimeOf inputs env.idStart with
    | .error e => ⟨.error e, st, [st]⟩
    | .ok (server_files, _) =>
      let files_meta := server_files.map metaOf
      match env.bindPort with
      | .error e => ⟨.error ("无法启动服务: " ++ e), st, [st]⟩
      | .ok port =>
        let sid := st.nextSid
        let st1 : MgrState :=
          { st with listeners := sid :: st.listeners, nextSid := st.nextSid + 1 }
        let addresses := collect_accessible_urls port env.ifaces
        let primary_url := choosePrimary addresses port
        let st2 : MgrState := { st1 with tasks := sid :: st1.tasks }
        let session : FileShareSession :=
          ⟨port, [primary_url], primary_url, files_meta⟩
        match st.slot with
        | some old =>
          let st3 : MgrState := { st2 with slot := none }
          let st4 : MgrState :=
            { st3 with listeners := st3.listeners.erase old.sid,
                       tasks := st3.tasks.erase old.sid }
          let st5 : MgrState := { st4 with slot := some ⟨sid, session⟩ }
          ⟨.ok session, st5, [st, st1, st2, st3, st4, st5]⟩
        | none =>
          let st5 : MgrState := { st2 with slot := some ⟨sid, session⟩ }
          ⟨.ok session, st5, [st, st1, st2, st5]⟩

/-- Models `FileShareManager::stop` (lines 231-239): take the share out of
the slot; if one was present, shut it down synchronously. -/
def stopFn (st : MgrState) : MgrState :=
  match st.slot with
  | none => st
  | some old =>
    { slot := none
      listeners := st.listeners.erase old.sid
      tasks := st.tasks.erase old.sid
      nextSid := st.nextSid }

/-- Models `FileShareManager::snapshot` (lines 241-244): clone the current
session out of the slot; the state is returned unchanged. -/
def snapshotFn (st : MgrState) : Option FileShareSession × MgrState :=
  (st.slot.map (fun sh => sh.session), st)

/-- Well-formedness of a manager state: the bound listeners and running
tasks are exactly the ones of the installed share, and installed ids are
in the past of the fresh-id counter. -/
def WF (st : MgrState) : Prop :=
  (∀ sh, st.slot = some sh →
    st.listeners = [sh.sid] ∧ st.tasks = [sh.sid] ∧ sh.sid < st.nextSid)
  ∧ (st.slot = none → st.listeners = [] ∧ st.tasks = [])

/-! ### Basic lemmas on the string helpers -/

theorem data_append (s t : String) : (s ++ t).data = s.data ++ t.data := rfl

theorem natCharsAux_stable (f : Nat) : ∀ (g n : Nat), n < f → n < g →
    natCharsAux f n = natCharsAux g n := by
  induction f with
  | zero => intro g n hf _; omega
  | succ f ih =>
    intro g n hf hg
    cases g with
    | zero => omega
    | succ g =>
      by_cases h : n < 10
      · simp [natCharsAux, h]
      · have hdiv : n / 10 < n := Nat.div_lt_self (by omega) (by omega)
        simp only [natCharsAux, if_neg h]
        rw [ih g (n / 10) (by omega) (by omega)]

theorem natChars_small (n : Nat) (h : n < 10) : natChars n = [digitChar n] := by
  simp [natChars, natCharsAux, h]

theorem natChars_big (n : Nat) (h : 10 ≤ n) :
    natChars n = natChars (n / 10) ++ [digitChar (n % 10)] := by
  have hdiv : n / 10 < n := Nat.div_lt_self (by omega) (by omega)
  show natCharsAux (n + 1) n = _
  simp only [natCharsAux, if_neg (by omega : ¬ n < 10)]
  rw [natCharsAux_stable n (n / 10 + 1) (n / 10) (by omega) (by omega)]
  rfl

theorem digitChar_range (d : Nat) : 48 ≤ (digitChar d).toNat ∧ (digitChar d).toNat ≤ 57 := by
  unfold digitChar
  split <;> try decide
  split <;> try decide
  split <;> try decide
  split <;> try decide
  split <;> try decide
  split <;> try decide
  split <;> try decide
  split <;> try decide
  split <;> decide

theorem digitChar_toNat (d : Nat) (h : d < 10) : (digitChar d).toNat = 48 + d := by
  interval_cases d <;> decide

theorem natChars_digit (n : Nat) : ∀ c ∈ natChars n, 48 ≤ c.toNat ∧ c.toNat ≤ 57 := by
  induction n using Nat.strong_induction_on with
  | _ n ih =>
    intro c hc
    by_cases h : n < 10
    · rw [natChars_small n h] at hc
      simp at hc
      subst hc
      exact digitChar_range n
    · rw [natChars_big n (by omega)] at hc
      rcases List.mem_append.mp hc with h1 | h2
      · exact ih (n / 10) (Nat.div_lt_self (by omega) (by omega)) c h1
      · simp at h2
        subst h2
        exact digitChar_range (n % 10)

theorem natChars_no (c : Char) (n : Nat) (h : c.toNat < 48 ∨ 57 < c.toNat) :
    c ∉ natChars n := by
  intro hc
  have := natChars_digit n c hc
  omega

theorem natChars_ne_nil (n : Nat) : natChars n ≠ [] := by
  by_cases h : n < 10
  · rw [natChars_small n h]; simp
  · rw [natChars_big n (by omega)]; simp

/-- Numeric value of a digit string, inverse of `natChars`. -/
def charsVal (cs : List Char) : Nat :=
  cs.foldl (fun a c => 10 * a + (c.toNat - 48)) 0

theorem charsVal_append_digit (cs : List Char) (c : Char) :
    charsVal (cs ++ [c]) = 10 * charsVal cs + (c.toNat - 48) := by
  simp [charsVal, List.foldl_append]

theorem charsVal_natChars (n : Nat) : charsVal (natChars n) = n := by
  induction n using Nat.strong_induction_on with
  | _ n ih =>
    by_cases h : n < 10
    · rw [natChars_small n h]
      simp [charsVal, digitChar_toNat n h]
    · rw [natChars_big n (by omega), charsVal_append_digit,
        ih (n / 10) (Nat.div_lt_self (by omega) (by omega)),
        digitChar_toNat (n % 10) (Nat.mod_lt _ (by omega))]
      omega

theorem natChars_len_le (n : Nat) (h : n ≤ 255) : (natChars n).length ≤ 3 := by
  by_cases h1 : n < 10
  · rw [natChars_small n h1]; simp
  · by_cases h2 : n < 100
    · rw [natChars_big n (by omega), natChars_small (n / 10) (by omega)]
      simp
    · rw [natChars_big n (by omega), natChars_big (n / 10) (by omega),
        natChars_small (n / 10 / 10) (by omega)]
      simp

theorem strStarts_iff (pat : List Char) : ∀ s : List Char,
    (strStarts pat s = true ↔ ∃ t, s = pat ++ t) := by
  induction pat with
  | nil =>
    intro s
    simp [strStarts]
  | cons p ps ih =>
    intro s
    cases s with
    | nil =>
      simp [strStarts]
    | cons c cs =>
      simp only [strStarts, Bool.and_eq_true, beq_iff_eq, ih cs]
      constructor
      · rintro ⟨rfl, t, rfl⟩
        exact ⟨t, rfl⟩
      · rintro ⟨t, ht⟩
        rw [List.cons_append] at ht
        injection ht with h1 h2
        exact ⟨h1.symm, t, h2⟩

theorem listHas_iff (pat : List Char) : ∀ s : List Char,
    (listHas pat s = true ↔ ∃ u v, s = u ++ pat ++ v) := by
  intro s
  induction s with
  | nil =>
    simp only [listHas, List.isEmpty_iff]
    constructor
    · rintro rfl
      exact ⟨[], [], rfl⟩
    · rintro ⟨u, v, huv⟩
      rcases List.append_eq_nil.mp (List.append_eq_nil.mp huv.symm).1 with ⟨_, h2⟩
      exact h2
  | cons c cs ih =>
    simp only [listHas, Bool.or_eq_true, strStarts_iff, ih]
    constructor
    · rintro (⟨t, ht⟩ | ⟨u, v, huv⟩)
      · exact ⟨[], t, by simpa using ht⟩
      · exact ⟨c :: u, v, by simp [huv]⟩
    · rintro ⟨u, v, huv⟩
      cases u with
      | nil =>
        exact Or.inl ⟨v, by simpa using huv⟩
      | cons u0 us =>
        rw [List.cons_append, List.cons_append] at huv
        injection huv with h1 h2
        exact Or.inr ⟨us, v, h2⟩

theorem listHas_mem (pat s : List Char) (h : listHas pat s = true) :
    ∀ c ∈ pat, c ∈ s := by
  rcases (listHas_iff pat s).mp h with ⟨u, v, rfl⟩
  intro c hc
  simp [hc]

theorem split_first_mark (mark : Char) (s1 : List Char) : ∀ (s2 r1 r2 : List Char),
    s1 ++ mark :: r1 = s2 ++ mark :: r2 → mark ∉ s1 → mark ∉ s2 →
    s1 = s2 ∧ r1 = r2 := by
  induction s1 with
  | nil =>
    intro s2 r1 r2 heq h1 h2
    cases s2 with
    | nil =>
      injection heq with _ h
      exact ⟨rfl, h⟩
    | cons b bs =>
      rw [List.nil_append, List.cons_append] at heq
      injection heq with hb _
      exact absurd (hb ▸ List.mem_cons_self b bs) h2
  | cons a as ih =>
    intro s2 r1 r2 heq h1 h2
    cases s2 with
    | nil =>
      rw [List.cons_append, List.nil_append] at heq
      injection heq with ha _
      exact absurd (ha ▸ List.mem_cons_self a as) h1
    | cons b bs =>
      rw [List.cons_append, List.cons_append] at heq
      injection heq with hab htail
      have h1' : mark ∉ as := fun hm => h1 (List.mem_cons_of_mem a hm)
      have h2' : mark ∉ bs := fun hm => h2 (List.mem_cons_of_mem b hm)
      rcases ih bs r1 r2 htail h1' h2' with ⟨hs, hr⟩
      exact ⟨by rw [hab, hs], hr⟩

/-! ### URL lemmas for primary-address selection -/

theorem v4Url_data (a b c d p : Nat) :
    (v4Url a b c d p).data =
      'h' :: 't' :: 't' :: 'p' :: ':' :: '/' :: '/' ::
        (natChars a ++ '.' :: (natChars b ++ '.' :: (natChars c ++ '.' ::
          (natChars d ++ ':' :: natChars p)))) := by
  simp only [v4Url, natStr, data_append, List.append_assoc]
  rfl

theorem count_dot_natChars (n : Nat) : List.count '.' (natChars n) = 0 :=
  List.count_eq_zero.mpr (natChars_no '.' n (by decide))

theorem pat127_not_in_v4url (a b c d p : Nat) (ha : a ≤ 255) (h127 : a ≠ 127) :
    urlContains (v4Url a b c d p) "127.0.0.1" = false := by
  refine Bool.eq_false_iff.mpr fun h => ?_
  rw [urlContains, v4Url_data] at h
  rcases (listHas_iff _ _).mp h with ⟨u, v, heq⟩
  have hpat : ("127.0.0.1".data : List Char) = ['1', '2', '7', '.', '0', '.', '0', '.', '1'] := rfl
  rw [hpat] at heq
  -- From the dot count, u and v contain no dot.
  have hcuv : List.count '.' u = 0 ∧ List.count '.' v = 0 := by
    have hcount := congrArg (List.count '.') heq
    simp [List.count_cons, List.count_append, count_dot_natChars] at hcount
    omega
  have hu : '.' ∉ u := List.count_eq_zero.mp hcuv.1
  have hv : '.' ∉ v := List.count_eq_zero.mp hcuv.2
  -- Align the first dot of the occurrence with the first dot of the URL.
  have heq2 : (u ++ ['1', '2', '7']) ++ '.' :: ('0' :: '.' :: '0' :: '.' :: '1' :: v) =
      (['h', 't', 't', 'p', ':', '/', '/'] ++ natChars a) ++ '.' ::
        (natChars b ++ '.' :: (natChars c ++ '.' :: (natChars d ++ ':' :: natChars p))) := by
    simpa [List.append_assoc] using heq.symm
  have hs1 : '.' ∉ u ++ ['1', '2', '7'] := by
    intro hm
    rcases List.mem_append.mp hm with hm | hm
    · exact hu hm
    · simp at hm
  have hs2 : '.' ∉ ['h', 't', 't', 'p', ':', '/', '/'] ++ natChars a := by
    intro hm
    rcases List.mem_append.mp hm with hm | hm
    · simp at hm
    · exact natChars_no '.' a (by decide) hm
  have hfirst := (split_first_mark '.' (u ++ ['1', '2', '7']) _ _ _ heq2 hs1 hs2).1
  -- The three characters before the first dot force a = 127.
  have hlen3 := natChars_len_le a ha
  have hnn := natChars_ne_nil a
  have hval := charsVal_natChars a
  rcases hA : natChars a with _ | ⟨x, _ | ⟨y, _ | ⟨z, rest⟩⟩⟩
  · exact hnn hA
  · rw [hA] at hfirst
    have hlu : u.length = 5 := by
      have := congrArg List.length hfirst
      simp at this
      omega
    have := (List.append_inj
      (by simpa [List.append_assoc] using hfirst :
        u ++ ['1', '2', '7'] = ['h', 't', 't', 'p', ':'] ++ ['/', '/', x])
      (by simp [hlu])).2
    simp at this
  · rw [hA] at hfirst
    have hlu : u.length = 6 := by
      have := congrArg List.length hfirst
      simp at this
      omega
    have := (List.append_inj
      (by simpa [List.append_assoc] using hfirst :
        u ++ ['1', '2', '7'] = ['h', 't', 't', 'p', ':', '/'] ++ ['/', x, y])
      (by simp [hlu])).2
    simp at this
  · have hrest : rest = [] := by
      rw [hA] at hlen3
      simp only [List.length_cons] at hlen3
      exact List.eq_nil_of_length_eq_zero (by omega)
    subst hrest
    rw [hA] at hfirst
    have hlu : u.length = 7 := by
      have := congrArg List.length hfirst
      simp at this
      omega
    have h3 := (List.append_inj
      (by simpa [List.append_assoc] using hfirst :
        u ++ ['1', '2', '7'] = ['h', 't', 't', 'p', ':', '/', '/'] ++ [x, y, z])
      (by simp [hlu])).2
    have hx : x = '1' ∧ y = '2' ∧ z = '7' := by
      have h31 := h3
      injection h31 with e1 h32
      injection h32 with e2 h33
      injection h33 with e3 _
      exact ⟨e1.symm, e2.symm, e3.symm⟩
    rcases hx with ⟨rfl, rfl, rfl⟩
    rw [hA] at hval
    have : charsVal ['1', '2', '7'] = 127 := by decide
    omega

theorem localhost_not_in_v4url (a b c d p : Nat) :
    urlContains (v4Url a b c d p) "localhost" = false := by
  refine Bool.eq_false_iff.mpr fun h => ?_
  rw [urlContains, v4Url_data] at h
  have hl : ('l' : Char) ∈ ("localhost".data : List Char) := by decide
  have hm := listHas_mem _ _ h 'l' hl
  simp only [List.mem_cons, List.mem_append] at hm
  rcases hm with h1 | h1 | h1 | h1 | h1 | h1 | h1 | hm
  · simp at h1
  · simp at h1
  · simp at h1
  · simp at h1
  · simp at h1
  · simp at h1
  · simp at h1
  · rcases hm with hm | hm
    · exact natChars_no 'l' a (by decide) hm
    rcases hm with hm | hm
    · simp at hm
    rcases hm with hm | hm
    · exact natChars_no 'l' b (by decide) hm
    rcases hm with hm | hm
    · simp at hm
    rcases hm with hm | hm
    · exact natChars_no 'l' c (by decide) hm
    rcases hm with hm | hm
    · simp at hm
    rcases hm with hm | hm
    · exact natChars_no 'l' d (by decide) hm
    rcases hm with hm | hm
    · simp at hm
    · exact natChars_no 'l' p (by decide) hm

theorem not192_localhost (p : Nat) : urlStarts (localhostUrl p) "http://192." = false := by
  refine Bool.eq_false_iff.mpr fun h => ?_
  rcases (strStarts_iff _ _).mp h with ⟨t, ht⟩
  have ht2 : 'h' :: 't' :: 't' :: 'p' :: ':' :: '/' :: '/' :: 'l' :: 'o' :: 'c' :: 'a' ::
      'l' :: 'h' :: 'o' :: 's' :: 't' :: ':' :: natChars p =
      'h' :: 't' :: 't' :: 'p' :: ':' :: '/' :: '/' :: '1' :: '9' :: '2' :: '.' :: t := ht
  simp at ht2

theorem not192_loopback (p : Nat) : urlStarts (loopbackUrl p) "http://192." = false := by
  refine Bool.eq_false_iff.mpr fun h => ?_
  rcases (strStarts_iff _ _).mp h with ⟨t, ht⟩
  have ht2 : 'h' :: 't' :: 't' :: 'p' :: ':' :: '/' :: '/' :: '1' :: '2' :: '7' :: '.' ::
      '0' :: '.' :: '0' :: '.' :: '1' :: ':' :: natChars p =
      'h' :: 't' :: 't' :: 'p' :: ':' :: '/' :: '/' :: '1' :: '9' :: '2' :: '.' :: t := ht
  simp at ht2

theorem not192_v6 (body : String) (p : Nat) :
    urlStarts (v6UrlForm body p) "http://192." = false := by
  refine Bool.eq_false_iff.mpr fun h => ?_
  rcases (strStarts_iff _ _).mp h with ⟨t, ht⟩
  have ht2 : 'h' :: 't' :: 't' :: 'p' :: ':' :: '/' :: '/' :: '[' ::
      ((body.data ++ [']', ':']) ++ natChars p) =
      'h' :: 't' :: 't' :: 'p' :: ':' :: '/' :: '/' :: '1' :: '9' :: '2' :: '.' :: t := ht
  simp at ht2

theorem starts192_v4 (a b c d p : Nat) (ha : a ≤ 255)
    (h : urlStarts (v4Url a b c d p) "http://192." = true) : a = 192 := by
  rcases (strStarts_iff _ _).mp h with ⟨t, ht⟩
  rw [v4Url_data] at ht
  have ht2 : natChars a ++ '.' :: (natChars b ++ '.' :: (natChars c ++ '.' ::
      (natChars d ++ ':' :: natChars p))) = '1' :: '9' :: '2' :: '.' :: t := by
    have ht3 : 'h' :: 't' :: 't' :: 'p' :: ':' :: '/' :: '/' ::
        (natChars a ++ '.' :: (natChars b ++ '.' :: (natChars c ++ '.' ::
          (natChars d ++ ':' :: natChars p)))) =
        'h' :: 't' :: 't' :: 'p' :: ':' :: '/' :: '/' :: '1' :: '9' :: '2' :: '.' :: t := ht
    simp only [List.cons.injEq] at ht3
    exact ht3.2.2.2.2.2.2.2
  have hval := charsVal_natChars a
  have hnn := natChars_ne_nil a
  have hlen3 := natChars_len_le a ha
  rcases hA : natChars a with _ | ⟨x, _ | ⟨y, _ | ⟨z, rest⟩⟩⟩
  · exact absurd hA hnn
  · rw [hA] at ht2
    simp at ht2
  · rw [hA] at ht2
    simp at ht2
  · have hrest : rest = [] := by
      rw [hA] at hlen3
      simp only [List.length_cons] at hlen3
      exact List.eq_nil_of_length_eq_zero (by omega)
    subst hrest
    rw [hA] at ht2
    simp at ht2
    rw [hA] at hval
    rcases ht2 with ⟨rfl, rfl, rfl, _⟩
    have : charsVal ['1', '9', '2'] = 192 := by decide
    omega

theorem loopback_contains_127 (p : Nat) : urlContains (loopbackUrl p) "127.0.0.1" = true := by
  apply (listHas_iff _ _).mpr
  refine ⟨['h', 't', 't', 'p', ':', '/', '/'], ':' :: natChars p, ?_⟩
  rfl

theorem localhost_contains_localhost (p : Nat) :
    urlContains (localhostUrl p) "localhost" = true := by
  apply (listHas_iff _ _).mpr
  refine ⟨['h', 't', 't', 'p', ':', '/', '/'], ':' :: natChars p, ?_⟩
  rfl

/-! ### Candidate address lists -/

/-- Shape of the URLs the Address Resolver can produce for a port: the two
loopback fallbacks, an IPv4 interface URL (octets are u8 values), or an
IPv6 interface URL. -/
def IsCandidateUrl (p : Nat) (u : String) : Prop :=
  u = localhostUrl p ∨ u = loopbackUrl p ∨
  (∃ a b c d, a ≤ 255 ∧ b ≤ 255 ∧ c ≤ 255 ∧ d ≤ 255 ∧ u = v4Url a b c d p) ∨
  (∃ body, u = v6UrlForm body p)

/-- The URL of a private-range IPv4 address (10.0.0.0/8, 172.16.0.0/12 or
192.168.0.0/16), following the wording of the specification. -/
def IsPrivateV4Url (p : Nat) (u : String) : Prop :=
  ∃ a b c d, a ≤ 255 ∧ b ≤ 255 ∧ c ≤ 255 ∧ d ≤ 255 ∧
    (a = 10 ∨ (a = 172 ∧ 16 ≤ b ∧ b ≤ 31) ∨ (a = 192 ∧ b = 168)) ∧
    u = v4Url a b c d p

theorem find192_some_spec (l : List String) (p : Nat)
    (hall : ∀ u ∈ l, IsCandidateUrl p u) (r : String)
    (hfind : l.find? (fun u => urlStarts u "http://192.") = some r) :
    urlContains r "127.0.0.1" = false ∧ urlContains r "localhost" = false := by
  have hpred := List.find?_some hfind
  have hmem := List.mem_of_find?_eq_some hfind
  rcases hall r hmem with rfl | rfl | ⟨a, b, c, d, ha, hb, hc, hd, rfl⟩ | ⟨body, rfl⟩
  · have hp2 : urlStarts (localhostUrl p) "http://192." = true := hpred
    simp [not192_localhost] at hp2
  · have hp2 : urlStarts (loopbackUrl p) "http://192." = true := hpred
    simp [not192_loopback] at hp2
  · have hp2 : urlStarts (v4Url a b c d p) "http://192." = true := hpred
    have h192 := starts192_v4 a b c d p ha hp2
    subst h192
    exact ⟨pat127_not_in_v4url 192 b c d p (by omega) (by omega),
      localhost_not_in_v4url 192 b c d p⟩
  · have hp2 : urlStarts (v6UrlForm body p) "http://192." = true := hpred
    simp [not192_v6] at hp2

/-- C6: for every candidate address list, the chosen primary URL prefers a
private-range IPv4 address over any address containing 127.0.0.1 or
localhost (if a private-range IPv4 URL is present, the chosen URL mentions
neither 127.0.0.1 nor localhost), and equals http://127.0.0.1:port when no
address qualifies as non-loopback. -/
theorem choosePrimary_spec (l : List String) (p : Nat)
    (hall : ∀ u ∈ l, IsCandidateUrl p u) :
    ((∃ u ∈ l, IsPrivateV4Url p u) →
      urlContains (choosePrimary l p) "127.0.0.1" = false ∧
      urlContains (choosePrimary l p) "localhost" = false)
    ∧ ((∀ u ∈ l, urlContains u "127.0.0.1" = true ∨ urlContains u "localhost" = true) →
      choosePrimary l p = loopbackUrl p) := by
  constructor
  · rintro ⟨u, hu, hpriv⟩
    rcases hfind1 : l.find? (fun u => urlStarts u "http://192.") with _ | r
    · rcases hpriv with ⟨a, b, c, d, ha, hb, hc, hd, hrange, rfl⟩
      have ha127 : a ≠ 127 := by rcases hrange with h | ⟨h, _⟩ | ⟨h, _⟩ <;> omega
      have hc1 := pat127_not_in_v4url a b c d p ha ha127
      have hc2 := localhost_not_in_v4url a b c d p
      rcases hfind2 : l.find? (fun u =>
          !(urlContains u "127.0.0.1") && !(urlContains u "localhost")) with _ | r
      · have hnone := List.find?_eq_none.mp hfind2 _ hu
        simp [hc1, hc2] at hnone
      · have hpred := List.find?_some hfind2
        simp only [Bool.and_eq_true, Bool.not_eq_true'] at hpred
        simp only [choosePrimary, hfind1, hfind2]
        exact ⟨hpred.1, hpred.2⟩
    · simp only [choosePrimary, hfind1]
      exact find192_some_spec l p hall r hfind1
  · intro hcont
    rcases hfind1 : l.find? (fun u => urlStarts u "http://192.") with _ | r
    · rcases hfind2 : l.find? (fun u =>
          !(urlContains u "127.0.0.1") && !(urlContains u "localhost")) with _ | r
      · simp only [choosePrimary, hfind1, hfind2]
        rfl
      · have hpred := List.find?_some hfind2
        have hmem := List.mem_of_find?_eq_some hfind2
        simp only [Bool.and_eq_true, Bool.not_eq_true'] at hpred
        rcases hcont r hmem with h | h
        · simp [hpred.1] at h
        · simp [hpred.2] at h
    · have hmem := List.mem_of_find?_eq_some hfind1
      have hk := find192_some_spec l p hall r hfind1
      rcases hcont r hmem with h | h
      · simp [hk.1] at h
      · simp [hk.2] at h

theorem choosePrimary_spec_witness :
    (∀ u ∈ [localhostUrl 80, loopbackUrl 80, v4Url 192 168 1 5 80], IsCandidateUrl 80 u)
    ∧ (∃ u ∈ [localhostUrl 80, loopbackUrl 80, v4Url 192 168 1 5 80], IsPrivateV4Url 80 u)
    ∧ urlContains
        (choosePrimary [localhostUrl 80, loopbackUrl 80, v4Url 192 168 1 5 80] 80)
        "127.0.0.1" = false
    ∧ urlContains
        (choosePrimary [localhostUrl 80, loopbackUrl 80, v4Url 192 168 1 5 80] 80)
        "localhost" = false := by
  have hall : ∀ u ∈ [localhostUrl 80, loopbackUrl 80, v4Url 192 168 1 5 80],
      IsCandidateUrl 80 u := by
    intro u hu
    simp only [List.mem_cons, List.not_mem_nil, or_false] at hu
    rcases hu with rfl | rfl | rfl
    · exact Or.inl rfl
    · exact Or.inr (Or.inl rfl)
    · exact Or.inr (Or.inr (Or.inl
        ⟨192, 168, 1, 5, by omega, by omega, by omega, by omega, rfl⟩))
  have hpriv : ∃ u ∈ [localhostUrl 80, loopbackUrl 80, v4Url 192 168 1 5 80],
      IsPrivateV4Url 80 u :=
    ⟨v4Url 192 168 1 5 80, by simp,
      ⟨192, 168, 1, 5, by omega, by omega, by omega, by omega,
        Or.inr (Or.inr ⟨rfl, rfl⟩), rfl⟩⟩
  have hres := (choosePrimary_spec _ 80 hall).1 hpriv
  exact ⟨hall, hpriv, hres.1, hres.2⟩

/-! ### Sorting and deduplication lemmas -/

theorem char_eq_of_toNat_eq (a b : Char) (h : a.toNat = b.toNat) : a = b := by
  rcases a with ⟨⟨⟨av, hav⟩⟩, ha⟩
  rcases b with ⟨⟨⟨bv, hbv⟩⟩, hb⟩
  simp [Char.toNat, UInt32.toNat] at h
  subst h
  rfl

theorem charListLe_total (a : List Char) : ∀ b, charListLe a b = true ∨ charListLe b a = true := by
  induction a with
  | nil => intro b; left; rfl
  | cons x xs ih =>
    intro b
    cases b with
    | nil => right; rfl
    | cons y ys =>
      simp only [charListLe]
      rcases Nat.lt_trichotomy x.toNat y.toNat with h | h | h
      · left; simp [h]
      · have hne1 : ¬ x.toNat < y.toNat := by omega
        have hne2 : ¬ y.toNat < x.toNat := by omega
        simp only [if_neg hne1, if_neg hne2]
        exact ih ys
      · right; simp [h]

theorem charListLe_trans (a : List Char) : ∀ b c, charListLe a b = true →
    charListLe b c = true → charListLe a c = true := by
  induction a with
  | nil => intro b c _ _; rfl
  | cons x xs ih =>
    intro b c hab hbc
    cases b with
    | nil => simp [charListLe] at hab
    | cons y ys =>
      cases c with
      | nil => simp [charListLe] at hbc
      | cons z zs =>
        simp only [charListLe] at hab hbc ⊢
        split at hab
        · rename_i hxy
          split at hbc
          · rename_i hyz
            simp [show x.toNat < z.toNat by omega]
          · split at hbc
            · simp at hbc
            · rename_i hzy hyz
              simp [show x.toNat < z.toNat by omega]
        · split at hab
          · simp at hab
          · rename_i hxy hyx
            split at hbc
            · rename_i hyz
              simp [show x.toNat < z.toNat by omega]
            · split at hbc
              · simp at hbc
              · rename_i hzy hyz
                have hxz1 : ¬ x.toNat < z.toNat := by omega
                have hxz2 : ¬ z.toNat < x.toNat := by omega
                simp only [if_neg hxz1, if_neg hxz2]
                exact ih ys zs hab hbc

theorem charListLe_antisymm (a : List Char) : ∀ b, charListLe a b = true →
    charListLe b a = true → a = b := by
  induction a with
  | nil =>
    intro b _ hba
    cases b with
    | nil => rfl
    | cons y ys => simp [charListLe] at hba
  | cons x xs ih =>
    intro b hab hba
    cases b with
    | nil => simp [charListLe] at hab
    | cons y ys =>
      simp only [charListLe] at hab hba
      split at hab
      · rename_i hxy
        rw [if_neg (by omega), if_pos (by omega)] at hba
        simp at hba
      · split at hab
        · simp at hab
        · rename_i hxy hyx
          rw [if_neg (by omega), if_neg (by omega)] at hba
          rw [ih ys hab hba, char_eq_of_toNat_eq x y (by omega)]

theorem strLeB_total (a b : String) : strLeB a b = true ∨ strLeB b a = true :=
  charListLe_total a.data b.data

theorem strLeB_trans (a b c : String) (h1 : strLeB a b = true) (h2 : strLeB b c = true) :
    strLeB a c = true :=
  charListLe_trans a.data b.data c.data h1 h2

theorem strLeB_antisymm (a b : String) (h1 : strLeB a b = true) (h2 : strLeB b a = true) :
    a = b := by
  rcases a with ⟨da⟩
  rcases b with ⟨db⟩
  have := charListLe_antisymm da db h1 h2
  rw [this]

theorem mem_insertSorted (x a : String) (l : List String) :
    a ∈ insertSorted x l ↔ a = x ∨ a ∈ l := by
  induction l with
  | nil => simp [insertSorted]
  | cons y ys ih =>
    simp only [insertSorted]
    split
    · simp [List.mem_cons]
    · simp only [List.mem_cons, ih]
      tauto

theorem pairwise_insertSorted (x : String) (l : List String)
    (h : l.Pairwise (fun a b => strLeB a b = true)) :
    (insertSorted x l).Pairwise (fun a b => strLeB a b = true) := by
  induction l with
  | nil => simp [insertSorted]
  | cons y ys ih =>
    simp only [insertSorted]
    rcases List.pairwise_cons.mp h with ⟨hy, hys⟩
    split
    · rename_i hxy
      refine List.pairwise_cons.mpr ⟨?_, h⟩
      intro b hb
      rcases List.mem_cons.mp hb with rfl | hb
      · exact hxy
      · exact strLeB_trans x y b hxy (hy b hb)
    · rename_i hxy
      have hyx : strLeB y x = true := by
        rcases strLeB_total x y with h1 | h1
        · exact absurd h1 hxy
        · exact h1
      refine List.pairwise_cons.mpr ⟨?_, ih hys⟩
      intro b hb
      rcases (mem_insertSorted x b ys).mp hb with rfl | hb
      · exact hyx
      · exact hy b hb

theorem sortStrings_pairwise (l : List String) :
    (sortStrings l).Pairwise (fun a b => strLeB a b = true) := by
  induction l with
  | nil => simp [sortStrings]
  | cons x xs ih => exact pairwise_insertSorted x (sortStrings xs) ih

theorem mem_sortStrings (a : String) (l : List String) : a ∈ sortStrings l ↔ a ∈ l := by
  induction l with
  | nil => simp [sortStrings]
  | cons x xs ih =>
    show a ∈ insertSorted x (sortStrings xs) ↔ _
    rw [mem_insertSorted]
    simp [ih]

theorem mem_dedupConsec (a : String) (l : List String) : a ∈ dedupConsec l ↔ a ∈ l := by
  induction l with
  | nil => simp [dedupConsec]
  | cons x xs ih =>
    cases xs with
    | nil => simp [dedupConsec]
    | cons y ys =>
      simp only [dedupConsec]
      split
      · rename_i hxy
        rw [ih]
        subst hxy
        simp [List.mem_cons]
      · rename_i hxy
        simp only [List.mem_cons, ih]

theorem dedupConsec_pairwise (l : List String)
    (h : l.Pairwise (fun a b => strLeB a b = true)) :
    (dedupConsec l).Pairwise (fun a b => strLeB a b = true) := by
  induction l with
  | nil => exact h
  | cons x xs ih =>
    cases xs with
    | nil => exact h
    | cons y ys =>
      rcases List.pairwise_cons.mp h with ⟨hx, htail⟩
      simp only [dedupConsec]
      split
      · exact ih htail
      · refine List.pairwise_cons.mpr ⟨?_, ih htail⟩
        intro b hb
        exact hx b ((mem_dedupConsec b (y :: ys)).mp hb)

theorem dedupConsec_nodup (l : List String)
    (h : l.Pairwise (fun a b => strLeB a b = true)) : (dedupConsec l).Nodup := by
  induction l with
  | nil => exact List.nodup_nil
  | cons x xs ih =>
    cases xs with
    | nil => simp [dedupConsec]
    | cons y ys =>
      rcases List.pairwise_cons.mp h with ⟨hx, htail⟩
      simp only [dedupConsec]
      split
      · exact ih htail
      · rename_i hxy
        refine List.nodup_cons.mpr ⟨?_, ih htail⟩
        intro hmem
        have hb := (mem_dedupConsec x (y :: ys)).mp hmem
        have hxb : strLeB x x = true := hx x hb
        rcases List.mem_cons.mp hb with rfl | hb2
        · exact hxy rfl
        · rcases List.pairwise_cons.mp htail with ⟨hy, _⟩
          have h1 : strLeB x y = true := hx y (List.mem_cons_self y ys)
          have h2 : strLeB y x = true := hy x hb2
          exact hxy (strLeB_antisymm x y h1 h2)

/-! ### Characterization of start outcomes -/

theorem startFn_ok_parts (st : MgrState) (inputs : List RawInput) (env : StartEnv)
    (sess : FileShareSession) (fin : MgrState) (tr : List MgrState)
    (h : startFn st inputs env = ⟨.ok sess, fin, tr⟩) :
    ∃ sf n1 port,
      inputs.isEmpty = false
      ∧ build_server_files env.hostSep env.mimeOf inputs env.idStart = .ok (sf, n1)
      ∧ env.bindPort = .ok port
      ∧ sess = ⟨port,
          [choosePrimary (collect_accessible_urls port env.ifaces) port],
          choosePrimary (collect_accessible_urls port env.ifaces) port,
          sf.map metaOf⟩
      ∧ fin.slot = some ⟨st.nextSid, sess⟩ := by
  by_cases h0 : inputs.isEmpty
  · rw [startFn] at h
    rw [if_pos h0] at h
    simp at h
  · rw [startFn] at h
    rw [if_neg h0] at h
    rcases hbuild : build_server_files env.hostSep env.mimeOf inputs env.idStart with e | ⟨sf, n1⟩
    · rw [hbuild] at h
      simp at h
    · rw [hbuild] at h
      rcases hbind : env.bindPort with e | port
      · rw [hbind] at h
        simp at h
      · rw [hbind] at h
        rcases hslot : st.slot with _ | old
        · rw [hslot] at h
          simp only [StartOut.mk.injEq, Except.ok.injEq] at h
          rcases h with ⟨hsess, hfin, _⟩
          refine ⟨sf, n1, port, by simpa using h0, rfl, rfl, hsess.symm, ?_⟩
          rw [← hfin, ← hsess]
        · rw [hslot] at h
          simp only [StartOut.mk.injEq, Except.ok.injEq] at h
          rcases h with ⟨hsess, hfin, _⟩
          refine ⟨sf, n1, port, by simpa using h0, rfl, rfl, hsess.symm, ?_⟩
          rw [← hfin, ← hsess]

theorem startFn_err (st : MgrState) (inputs : List RawInput) (env : StartEnv)
    (e : String) (h : (startFn st inputs env).result = .error e) :
    startFn st inputs env = ⟨.error e, st, [st]⟩ := by
  by_cases h0 : inputs.isEmpty
  · rw [startFn] at h ⊢
    rw [if_pos h0] at h ⊢
    simp at h
    simp [h]
  · rw [startFn] at h ⊢
    rw [if_neg h0] at h ⊢
    rcases hbuild : build_server_files env.hostSep env.mimeOf inputs env.idStart with e2 | ⟨sf, n1⟩
    · rw [hbuild] at h
      simp at h
      simp [h]
    · rw [hbuild] at h
      rcases hbind : env.bindPort with e2 | port
      · rw [hbind] at h
        simp at h
        simp [h]
      · rw [hbind] at h
        rcases hslot : st.slot with _ | old
        · rw [hslot] at h
          simp at h
        · rw [hslot] at h
          simp at h

theorem startFn_ok_replace (st : MgrState) (inputs : List RawInput) (env : StartEnv)
    (old : ActiveShare) (hslot : st.slot = some old)
    (sess : FileShareSession) (fin : MgrState) (tr : List MgrState)
    (h : startFn st inputs env = ⟨.ok sess, fin, tr⟩) :
    fin = ⟨some ⟨st.nextSid, sess⟩, (st.nextSid :: st.listeners).erase old.sid,
      (st.nextSid :: st.tasks).erase old.sid, st.nextSid + 1⟩
    ∧ tr = [st,
        ⟨some old, st.nextSid :: st.listeners, st.tasks, st.nextSid + 1⟩,
        ⟨some old, st.nextSid :: st.listeners, st.nextSid :: st.tasks, st.nextSid + 1⟩,
        ⟨none, st.nextSid :: st.listeners, st.nextSid :: st.tasks, st.nextSid + 1⟩,
        ⟨none, (st.nextSid :: st.listeners).erase old.sid,
          (st.nextSid :: st.tasks).erase old.sid, st.nextSid + 1⟩,
        fin] := by
  by_cases h0 : inputs.isEmpty
  · rw [startFn] at h
    rw [if_pos h0] at h
    simp at h
  · rw [startFn] at h
    rw [if_neg h0] at h
    rcases hbuild : build_server_files env.hostSep env.mimeOf inputs env.idStart with e | ⟨sf, n1⟩
    · rw [hbuild] at h
      simp at h
    · rw [hbuild] at h
      rcases hbind : env.bindPort with e | port
      · rw [hbind] at h
        simp at h
      · rw [hbind] at h
        rw [hslot] at h
        simp only [StartOut.mk.injEq, Except.ok.injEq] at h
        rcases h with ⟨hsess, hfin, htr⟩
        subst hsess
        subst hfin
        subst htr
        exact ⟨rfl, rfl⟩

/-- C2: start is all-or-nothing: whenever it returns an error (manifest
construction failure, bind failure, or the empty-selection check), the
manager is left exactly in its initial state and the execution trace shows
no intermediate state, so the active-session slot is only touched after
all fallible steps have succeeded. -/
theorem start_all_or_nothing (st : MgrState) (inputs : List RawInput) (env : StartEnv)
    (e : String) (h : (startFn st inputs env).result = .error e) :
    (startFn st inputs env).final = st ∧ (startFn st inputs env).trace = [st] := by
  rw [startFn_err st inputs env e h]
  exact ⟨rfl, rfl⟩

theorem start_all_or_nothing_witness :
    ((startFn ⟨none, [], [], 0⟩ [RawInput.unreadable "x" "boom"]
        ⟨'/', fun _ => none, 0, .ok 80, some []⟩).result = .error "无法读取路径 x: boom")
    ∧ (startFn ⟨none, [], [], 0⟩ [RawInput.unreadable "x" "boom"]
        ⟨'/', fun _ => none, 0, .ok 80, some []⟩).final = ⟨none, [], [], 0⟩ := by
  have h : (startFn ⟨none, [], [], 0⟩ [RawInput.unreadable "x" "boom"]
      ⟨'/', fun _ => none, 0, .ok 80, some []⟩).result = .error "无法读取路径 x: boom" := by
    decide
  exact ⟨h, (start_all_or_nothing _ _ _ _ h).1⟩

/-- C9: stop is idempotent and observable through snapshot: stop from the
Idle state is a no-op, a second consecutive stop changes nothing, after
any stop the snapshot is none until a subsequent successful start, and
snapshot never mutates the manager state. -/
theorem stop_idempotent_snapshot (st : MgrState) :
    (st.slot = none → stopFn st = st)
    ∧ stopFn (stopFn st) = stopFn st
    ∧ (snapshotFn (stopFn st)).1 = none
    ∧ (snapshotFn st).2 = st
    ∧ (∀ inputs env sess fin tr, startFn (stopFn st) inputs env = ⟨.ok sess, fin, tr⟩ →
        (snapshotFn fin).1 = some sess) := by
  refine ⟨?_, ?_, ?_, rfl, ?_⟩
  · intro h
    simp [stopFn, h]
  · rcases hslot : st.slot with _ | old
    · simp [stopFn, hslot]
    · simp [stopFn, hslot]
  · rcases hslot : st.slot with _ | old
    · simp [stopFn, snapshotFn, hslot]
    · simp [stopFn, snapshotFn, hslot]
  · intro inputs env sess fin tr h
    rcases startFn_ok_parts _ _ _ _ _ _ h with ⟨sf, n1, port, _, _, _, _, hfin⟩
    simp [snapshotFn, hfin]

theorem stop_idempotent_snapshot_witness :
    ((⟨none, [], [], 3⟩ : MgrState).slot = none)
    ∧ stopFn (⟨none, [], [], 3⟩ : MgrState) = ⟨none, [], [], 3⟩
    ∧ (snapshotFn (stopFn (⟨some ⟨0, ⟨70, ["u"], "u", []⟩⟩, [0], [0], 1⟩ : MgrState))).1 = none := by
  refine ⟨rfl, (stop_idempotent_snapshot ⟨none, [], [], 3⟩).1 rfl, ?_⟩
  exact (stop_idempotent_snapshot ⟨some ⟨0, ⟨70, ["u"], "u", []⟩⟩, [0], [0], 1⟩).2.2.1

/-- C1 (amended): at most one ActiveShare exists at any instant, and on a
successful start from the Active state the previous share is shut down
(listener closed, task awaited) strictly before the new share is installed
and before start returns: the final state carries only the new share, and
no trace state that has the new share installed still runs the old task or
listener. The original claim additionally asserted at most one bound
listener at every instant; that part is false, because the new listener is
bound before the old share is shut down (see the counterexample). -/
theorem start_replace_shutdown (st : MgrState) (inputs : List RawInput) (env : StartEnv)
    (old : ActiveShare) (hslot : st.slot = some old) (hwf : WF st)
    (sess : FileShareSession) (fin : MgrState) (tr : List MgrState)
    (h : startFn st inputs env = ⟨.ok sess, fin, tr⟩) :
    (∃ ns : ActiveShare, fin.slot = some ns ∧ ns.session = sess ∧ ns.sid ≠ old.sid)
    ∧ old.sid ∉ fin.listeners ∧ old.sid ∉ fin.tasks
    ∧ (∀ s ∈ tr, (∀ sh, s.slot = some sh → sh = old) ∨
        (old.sid ∉ s.listeners ∧ old.sid ∉ s.tasks))
    ∧ WF fin := by
  rcases startFn_ok_replace st inputs env old hslot sess fin tr h with ⟨hfin, htr⟩
  rcases hwf.1 old hslot with ⟨hl, ht, hsid⟩
  have hne : st.nextSid ≠ old.sid := by omega
  have herase1 : (st.nextSid :: st.listeners).erase old.sid = [st.nextSid] := by
    rw [hl]
    simp [List.erase_cons, hne]
  have herase2 : (st.nextSid :: st.tasks).erase old.sid = [st.nextSid] := by
    rw [ht]
    simp [List.erase_cons, hne]
  have hmem1 : old.sid ∉ fin.listeners := by
    rw [hfin]
    simp [herase1]
    omega
  have hmem2 : old.sid ∉ fin.tasks := by
    rw [hfin]
    simp [herase2]
    omega
  refine ⟨⟨⟨st.nextSid, sess⟩, by rw [hfin], rfl, hne⟩, hmem1, hmem2, ?_, ?_⟩
  · rw [htr]
    intro s hs
    simp only [List.mem_cons, List.not_mem_nil, or_false] at hs
    rcases hs with rfl | rfl | rfl | rfl | rfl | rfl
    · left
      intro sh hsh
      rw [hslot] at hsh
      injection hsh with hsh
      exact hsh.symm
    · left
      intro sh hsh
      injection hsh with hsh
      exact hsh.symm
    · left
      intro sh hsh
      injection hsh with hsh
      exact hsh.symm
    · left
      intro sh hsh
      simp at hsh
    · right
      constructor
      · simp [herase1]
        omega
      · simp [herase2]
        omega
    · exact Or.inr ⟨hmem1, hmem2⟩
  · constructor
    · intro sh hsh
      rw [hfin] at hsh
      simp only [Option.some.injEq] at hsh
      rw [hfin, ← hsh]
      exact ⟨by simp [herase1], by simp [herase2], by simp⟩
    · intro hnone
      rw [hfin] at hnone
      simp at hnone

theorem start_replace_shutdown_witness :
    (startFn ⟨some ⟨0, ⟨70, ["u"], "u", []⟩⟩, [0], [0], 1⟩
        [.resolved "/a" "a" (.file 1)] ⟨'/', fun _ => none, 5, .ok 81, some []⟩
      = ⟨.ok ⟨81, ["http://127.0.0.1:81"], "http://127.0.0.1:81",
            [⟨"uuid-5", "a", "a", 1, none⟩]⟩,
          ⟨some ⟨1, ⟨81, ["http://127.0.0.1:81"], "http://127.0.0.1:81",
            [⟨"uuid-5", "a", "a", 1, none⟩]⟩⟩, [1], [1], 2⟩,
          [⟨some ⟨0, ⟨70, ["u"], "u", []⟩⟩, [0], [0], 1⟩,
           ⟨some ⟨0, ⟨70, ["u"], "u", []⟩⟩, [1, 0], [0], 2⟩,
           ⟨some ⟨0, ⟨70, ["u"], "u", []⟩⟩, [1, 0], [1, 0], 2⟩,
           ⟨none, [1, 0], [1, 0], 2⟩,
           ⟨none, [1], [1], 2⟩,
           ⟨some ⟨1, ⟨81, ["http://127.0.0.1:81"], "http://127.0.0.1:81",
             [⟨"uuid-5", "a", "a", 1, none⟩]⟩⟩, [1], [1], 2⟩]⟩)
    ∧ WF ⟨some ⟨0, ⟨70, ["u"], "u", []⟩⟩, [0], [0], 1⟩
    ∧ (0 : Nat) ∉ (⟨some ⟨1, ⟨81, ["http://127.0.0.1:81"], "http://127.0.0.1:81",
        [⟨"uuid-5", "a", "a", 1, none⟩]⟩⟩, [1], [1], 2⟩ : MgrState).listeners := by
  have hwf : WF ⟨some ⟨0, ⟨70, ["u"], "u", []⟩⟩, [0], [0], 1⟩ := by
    constructor
    · intro sh hsh
      simp only [Option.some.injEq] at hsh
      subst hsh
      exact ⟨rfl, rfl, by decide⟩
    · intro hnone
      simp at hnone
  have h : startFn ⟨some ⟨0, ⟨70, ["u"], "u", []⟩⟩, [0], [0], 1⟩
      [.resolved "/a" "a" (.file 1)] ⟨'/', fun _ => none, 5, .ok 81, some []⟩
    = ⟨.ok ⟨81, ["http://127.0.0.1:81"], "http://127.0.0.1:81",
          [⟨"uuid-5", "a", "a", 1, none⟩]⟩,
        ⟨some ⟨1, ⟨81, ["http://127.0.0.1:81"], "http://127.0.0.1:81",
          [⟨"uuid-5", "a", "a", 1, none⟩]⟩⟩, [1], [1], 2⟩,
        [⟨some ⟨0, ⟨70, ["u"], "u", []⟩⟩, [0], [0], 1⟩,
         ⟨some ⟨0, ⟨70, ["u"], "u", []⟩⟩, [1, 0], [0], 2⟩,
         ⟨some ⟨0, ⟨70, ["u"], "u", []⟩⟩, [1, 0], [1, 0], 2⟩,
         ⟨none, [1, 0], [1, 0], 2⟩,
         ⟨none, [1], [1], 2⟩,
         ⟨some ⟨1, ⟨81, ["http://127.0.0.1:81"], "http://127.0.0.1:81",
           [⟨"uuid-5", "a", "a", 1, none⟩]⟩⟩, [1], [1], 2⟩]⟩ := by
    decide
  exact ⟨h, hwf,
    (start_replace_shutdown _ _ _ ⟨0, ⟨70, ["u"], "u", []⟩⟩ rfl hwf _ _ _ h).2.1⟩

/-- C1 is refuted as literally stated: a successful start from the Active
state passes through an instant with two bound listeners, because the new
listener is bound before the previous share is shut down. -/
theorem c1_two_listeners_counterexample :
    ((startFn ⟨some ⟨0, ⟨70, ["u"], "u", []⟩⟩, [0], [0], 1⟩
        [.resolved "/a" "a" (.file 1)] ⟨'/', fun _ => none, 5, .ok 81, some []⟩).result.isOk
      = true)
    ∧ ∃ s ∈ (startFn ⟨some ⟨0, ⟨70, ["u"], "u", []⟩⟩, [0], [0], 1⟩
        [.resolved "/a" "a" (.file 1)] ⟨'/', fun _ => none, 5, .ok 81, some []⟩).trace,
        2 ≤ s.listeners.length := by
  decide

/-! ### Empty selections (C7) -/

/-- An input whose processing emits no manifest entry: a directory whose
recursive walk finds no regular file. -/
def InputYieldsNoFiles (i : RawInput) : Prop :=
  ∃ canon leaf es, i = .resolved canon leaf (.dir es) ∧ walkList [] es = []

theorem buildLoop_no_files (sep : Char) (mimeOf : String → Option String) :
    ∀ (inputs : List RawInput) (acc : List ServerFile) (n : Nat),
    (∀ i ∈ inputs, InputYieldsNoFiles i) →
    buildLoop sep mimeOf inputs acc n = .ok (acc, n) := by
  intro inputs
  induction inputs with
  | nil => intro acc n _; rfl
  | cons i rest ih =>
    intro acc n hall
    rcases hall i (List.mem_cons_self i rest) with ⟨canon, leaf, es, rfl, hwalk⟩
    show buildLoop sep mimeOf (.resolved canon leaf (.dir es) :: rest) acc n = _
    simp only [buildLoop, hwalk, stampWalk, List.append_nil, List.length_nil, Nat.add_zero]
    exact ih acc n (fun j hj => hall j (List.mem_cons_of_mem _ hj))

/-- C7: start with an empty path list fails with the invalid-selection
error before any socket is bound (the trace contains no state with a new
listener and the state is unchanged), and a non-empty selection whose
processing yields zero file entries fails with the empty-selection error;
in both cases no session is published. -/
theorem start_empty_selection (st : MgrState) (env : StartEnv) :
    (startFn st [] env = ⟨.error "请选择至少一个需要分享的文件。", st, [st]⟩)
    ∧ (∀ s ∈ (startFn st [] env).trace, s.listeners = st.listeners ∧ s.slot = st.slot)
    ∧ (∀ inputs, inputs ≠ [] → (∀ i ∈ inputs, InputYieldsNoFiles i) →
        startFn st inputs env = ⟨.error "所选项目中没有可分享的文件。", st, [st]⟩) := by
  have h1 : startFn st [] env = ⟨.error "请选择至少一个需要分享的文件。", st, [st]⟩ := by
    rw [startFn]
    rfl
  refine ⟨h1, ?_, ?_⟩
  · intro s hs
    rw [h1] at hs
    simp at hs
    subst hs
    exact ⟨rfl, rfl⟩
  · intro inputs hne hall
    have hbuild : build_server_files env.hostSep env.mimeOf inputs env.idStart
        = .error "所选项目中没有可分享的文件。" := by
      rw [build_server_files, buildLoop_no_files env.hostSep env.mimeOf inputs [] env.idStart hall]
      rfl
    rw [startFn]
    rw [if_neg (by simpa using hne), hbuild]

theorem start_empty_selection_witness :
    (startFn ⟨none, [], [], 0⟩ [] ⟨'/', fun _ => none, 0, .ok 80, some []⟩
      = ⟨.error "请选择至少一个需要分享的文件。", ⟨none, [], [], 0⟩, [⟨none, [], [], 0⟩]⟩)
    ∧ (startFn ⟨none, [], [], 0⟩ [.resolved "/d" "d" (.dir [])]
        ⟨'/', fun _ => none, 0, .ok 80, some []⟩
      = ⟨.error "所选项目中没有可分享的文件。", ⟨none, [], [], 0⟩, [⟨none, [], [], 0⟩]⟩) := by
  refine ⟨(start_empty_selection ⟨none, [], [], 0⟩ ⟨'/', fun _ => none, 0, .ok 80, some []⟩).1, ?_⟩
  refine (start_empty_selection ⟨none, [], [], 0⟩ ⟨'/', fun _ => none, 0, .ok 80, some []⟩).2.2
    [.resolved "/d" "d" (.dir [])] (by simp) ?_
  intro i hi
  simp only [List.mem_cons, List.not_mem_nil, or_false] at hi
  subst hi
  exact ⟨"/d", "d", [], rfl, rfl⟩

/-! ### Address resolver output and the descriptor addresses field (C5) -/

/-- C5 (amended): the Address Resolver output is deduplicated, sorted, and
always contains http://localhost:port and http://127.0.0.1:port — only
those two when interface enumeration fails — and the primary URL of a
successful start is chosen from this full list; however the addresses
field of the returned descriptor is the one-element list holding just the
chosen primary URL, not the full resolver list (the original claim is
refuted by the counterexample). -/
theorem collect_urls_spec (port : Nat) (ifr : Option (List ModelIface)) :
    localhostUrl port ∈ collect_accessible_urls port ifr
    ∧ loopbackUrl port ∈ collect_accessible_urls port ifr
    ∧ (collect_accessible_urls port ifr).Pairwise (fun a b => strLeB a b = true)
    ∧ (collect_accessible_urls port ifr).Nodup
    ∧ (ifr = none → ∀ u ∈ collect_accessible_urls port ifr,
        u = localhostUrl port ∨ u = loopbackUrl port)
    ∧ (∀ st inputs env sess fin tr, startFn st inputs env = ⟨.ok sess, fin, tr⟩ →
        sess.addresses = [sess.primary_url]
        ∧ (env.bindPort = .ok port →
            sess.primary_url = choosePrimary (collect_accessible_urls port env.ifaces) port)) := by
  refine ⟨?_, ?_, ?_, ?_, ?_, ?_⟩
  · exact (mem_dedupConsec _ _).mpr ((mem_sortStrings _ _).mpr (by simp))
  · exact (mem_dedupConsec _ _).mpr ((mem_sortStrings _ _).mpr (by simp))
  · exact dedupConsec_pairwise _ (sortStrings_pairwise _)
  · exact dedupConsec_nodup _ (sortStrings_pairwise _)
  · rintro rfl u hu
    have := (mem_sortStrings _ _).mp ((mem_dedupConsec _ _).mp hu)
    simpa using this
  · intro st inputs env sess fin tr h
    rcases startFn_ok_parts _ _ _ _ _ _ h with ⟨sf, n1, port2, _, _, hbind, hsess, _⟩
    subst hsess
    refine ⟨rfl, ?_⟩
    intro hb
    rw [hbind] at hb
    injection hb with hb
    subst hb
    rfl

theorem collect_urls_spec_witness :
    localhostUrl 80 ∈ collect_accessible_urls 80 none
    ∧ (∀ u ∈ collect_accessible_urls 80 none, u = localhostUrl 80 ∨ u = loopbackUrl 80)
    ∧ (⟨(80 : Nat), ["http://127.0.0.1:80"], "http://127.0.0.1:80",
        [⟨"uuid-0", "a", "a", 10, none⟩]⟩ : FileShareSession).addresses
      = [(⟨(80 : Nat), ["http://127.0.0.1:80"], "http://127.0.0.1:80",
        [⟨"uuid-0", "a", "a", 10, none⟩]⟩ : FileShareSession).primary_url] := by
  have h : startFn ⟨none, [], [], 0⟩ [.resolved "/a" "a" (.file 10)]
      ⟨'/', fun _ => none, 0, .ok 80, some []⟩
    = ⟨.ok ⟨80, ["http://127.0.0.1:80"], "http://127.0.0.1:80",
          [⟨"uuid-0", "a", "a", 10, none⟩]⟩,
        ⟨some ⟨0, ⟨80, ["http://127.0.0.1:80"], "http://127.0.0.1:80",
          [⟨"uuid-0", "a", "a", 10, none⟩]⟩⟩, [0], [0], 1⟩,
        [⟨none, [], [], 0⟩, ⟨none, [0], [], 1⟩, ⟨none, [0], [0], 1⟩,
         ⟨some ⟨0, ⟨80, ["http://127.0.0.1:80"], "http://127.0.0.1:80",
           [⟨"uuid-0", "a", "a", 10, none⟩]⟩⟩, [0], [0], 1⟩]⟩ := by
    decide
  exact ⟨(collect_urls_spec 80 none).1,
    (collect_urls_spec 80 none).2.2.2.2.1 rfl,
    ((collect_urls_spec 80 none).2.2.2.2.2 _ _ _ _ _ _ h).1⟩

/-- C5 is refuted as literally stated: a successful start returns a
descriptor whose addresses field is a one-element list, which differs from
the full resolver candidate list for the same port and interfaces. -/
theorem c5_addresses_counterexample :
    ((startFn ⟨none, [], [], 0⟩ [.resolved "/a" "a" (.file 10)]
        ⟨'/', fun _ => none, 0, .ok 80, some []⟩).result.isOk = true)
    ∧ Except.map (fun s => s.addresses)
        (startFn ⟨none, [], [], 0⟩ [.resolved "/a" "a" (.file 10)]
          ⟨'/', fun _ => none, 0, .ok 80, some []⟩).result
      ≠ Except.ok (collect_accessible_urls 80 (some [])) := by
  decide

/-! ### No source path in descriptors or responses (C8) -/

/-- Two manifest entries that agree on every field except the absolute
source path. -/
def pathAgnostic (f g : ServerFile) : Prop :=
  f.id = g.id ∧ f.display_name = g.display_name ∧ f.download_name = g.download_name
  ∧ f.size = g.size ∧ f.extension = g.extension ∧ f.mime = g.mime

theorem pathAgnostic_map_metaOf (files1 files2 : List ServerFile)
    (hrel : List.Forall₂ pathAgnostic files1 files2) :
    files1.map metaOf = files2.map metaOf := by
  induction hrel with
  | nil => rfl
  | cons hfg hrest ih =>
    rcases hfg with ⟨h1, h2, h3, h4, h5, _⟩
    simp only [List.map_cons, ih, List.cons.injEq, and_true]
    simp [metaOf, h1, h2, h3, h4, h5]

theorem pathAgnostic_map_card (fsz : Nat → String) (files1 files2 : List ServerFile)
    (hrel : List.Forall₂ pathAgnostic files1 files2) :
    files1.map (fileCard fsz) = files2.map (fileCard fsz) := by
  induction hrel with
  | nil => rfl
  | cons hfg hrest ih =>
    rcases hfg with ⟨h1, h2, _, h4, h5, _⟩
    simp only [List.map_cons, ih, List.cons.injEq, and_true]
    simp [fileCard, fileDescription, h1, h2, h4, h5]

theorem pathAgnostic_map_size (files1 files2 : List ServerFile)
    (hrel : List.Forall₂ pathAgnostic files1 files2) :
    files1.map (fun f => f.size) = files2.map (fun f => f.size) := by
  induction hrel with
  | nil => rfl
  | cons hfg hrest ih =>
    simp only [List.map_cons, ih, List.cons.injEq, and_true]
    exact hfg.2.2.2.1

theorem pathAgnostic_download (files1 files2 : List ServerFile)
    (hrel : List.Forall₂ pathAgnostic files1 files2) (fid : String)
    (fo1 fo2 : String → Option (List Nat))
    (hfs : List.Forall₂ (fun f g => fo1 f.path = fo2 g.path) files1 files2) :
    download_file files1 fid fo1 = download_file files2 fid fo2 := by
  induction hrel with
  | nil => rfl
  | cons hfg hrest ih =>
    rename_i f g fs1 fs2
    rcases hfg with ⟨hid, hdn, hdl, hsz, hext, hmime⟩
    cases hfs with
    | cons hfs1 hfsrest =>
      cases hB : (g.id == fid) with
      | false =>
        rw [download_file, List.find?_cons_of_neg _ (by simp only [hid, hB]; simp),
          download_file, List.find?_cons_of_neg _ (by simp only [hB]; simp)]
        exact ih hfsrest
      | true =>
        rw [download_file, List.find?_cons_of_pos _ (by simp only [hid, hB]),
          download_file, List.find?_cons_of_pos _ (by simp only [hB])]
        simp only [hfs1, hmime, hdl]

/-- C8: descriptors and HTTP responses carry only the metadata of a
manifest entry and never its absolute source path: the descriptor file
list of a successful start is exactly the metadata projection (id,
displayName, downloadName, sizeBytes, extension) of the built manifest,
and two manifests that agree on everything but the source paths produce
identical descriptors, identical index pages, and identical download
responses (headers and bodies) whenever opening the corresponding paths
gives the same outcome. -/
theorem no_source_path_leak (files1 files2 : List ServerFile)
    (hrel : List.Forall₂ pathAgnostic files1 files2) :
    files1.map metaOf = files2.map metaOf
    ∧ (∀ accent fsz, serve_index accent fsz files1 = serve_index accent fsz files2)
    ∧ (∀ fid fo1 fo2, List.Forall₂ (fun f g => fo1 f.path = fo2 g.path) files1 files2 →
        download_file files1 fid fo1 = download_file files2 fid fo2)
    ∧ (∀ st inputs env sess fin tr sf n1, startFn st inputs env = ⟨.ok sess, fin, tr⟩ →
        build_server_files env.hostSep env.mimeOf inputs env.idStart = .ok (sf, n1) →
        sess.files = sf.map metaOf) := by
  refine ⟨pathAgnostic_map_metaOf files1 files2 hrel, ?_, ?_, ?_⟩
  · intro accent fsz
    have hlen := List.Forall₂.length_eq hrel
    simp only [serve_index, file_list_markup, pathAgnostic_map_card fsz files1 files2 hrel,
      pathAgnostic_map_size files1 files2 hrel, hlen]
  · exact fun fid fo1 fo2 hfs => pathAgnostic_download files1 files2 hrel fid fo1 fo2 hfs
  · intro st inputs env sess fin tr sf n1 h hbuild
    rcases startFn_ok_parts _ _ _ _ _ _ h with ⟨sf0, n0, port, _, hbuild0, _, hsess, _⟩
    rw [hbuild0] at hbuild
    injection hbuild with hbuild
    injection hbuild with hsf _
    rw [hsess, ← hsf]

theorem no_source_path_leak_witness :
    List.Forall₂ pathAgnostic
      [⟨"i", "n", "d", 3, some "txt", "/secret/path/a", some "text/plain"⟩]
      [⟨"i", "n", "d", 3, some "txt", "/other/path/b", some "text/plain"⟩]
    ∧ List.map metaOf [⟨"i", "n", "d", 3, some "txt", "/secret/path/a", some "text/plain"⟩]
      = List.map metaOf [⟨"i", "n", "d", 3, some "txt", "/other/path/b", some "text/plain"⟩] := by
  have hrel : List.Forall₂ pathAgnostic
      [⟨"i", "n", "d", 3, some "txt", "/secret/path/a", some "text/plain"⟩]
      [⟨"i", "n", "d", 3, some "txt", "/other/path/b", some "text/plain"⟩] :=
    List.Forall₂.cons ⟨rfl, rfl, rfl, rfl, rfl, rfl⟩ List.Forall₂.nil
  exact ⟨hrel, (no_source_path_leak _ _ hrel).1⟩

/-! ### Download responses (C3) -/

/-- C3 (amended): for every manifest and request GET /files/id — if no
entry has the requested id, the response is a 404 with the short
unknown-file text; if the source of the matched entry cannot be opened at
request time, the response is a 404 with the file-gone text; if it opens,
the response is a 200 whose body streams the file bytes, whose
Content-Type is the MIME guess of the entry (default application/octet-stream)
and whose Content-Disposition is the attachment header with the sanitized
download name, each header being present exactly when its value is a
valid HTTP header value and silently omitted otherwise (the original
claim asserts the Content-Disposition header unconditionally and is
refuted by the counterexample); the handler never changes the manifest. -/
theorem download_file_spec (files : List ServerFile) (fid : String)
    (fo : String → Option (List Nat)) :
    ((∀ f ∈ files, f.id ≠ fid) →
      download_file files fid fo
        = ⟨404, some "text/plain; charset=utf-8", none, .text "你要找的文件不存在。"⟩)
    ∧ (∀ f, files.find? (fun f => f.id == fid) = some f → fo f.path = none →
      download_file files fid fo
        = ⟨404, some "text/plain; charset=utf-8", none,
            .text "文件不再可用，请在桌面端重新选择。"⟩)
    ∧ (∀ f bytes, files.find? (fun f => f.id == fid) = some f → fo f.path = some bytes →
      download_file files fid fo
        = ⟨200,
            if headerValueValid (f.mime.getD "application/octet-stream") = true
              then some (f.mime.getD "application/octet-stream") else none,
            if headerValueValid
                ("attachment; filename=\"" ++ sanitize_filename f.download_name ++ "\"") = true
              then some ("attachment; filename=\"" ++ sanitize_filename f.download_name ++ "\"")
              else none,
            .stream bytes⟩)
    ∧ (downloadStep files fid fo).2 = files := by
  refine ⟨?_, ?_, ?_, rfl⟩
  · intro hne
    have hfind : files.find? (fun f => f.id == fid) = none :=
      List.find?_eq_none.mpr (fun x hx => by simp [hne x hx])
    simp [download_file, hfind]
  · intro f hfind hfo
    simp [download_file, hfind, hfo]
  · intro f bytes hfind hfo
    simp [download_file, hfind, hfo]

theorem download_file_spec_witness :
    (∀ f ∈ [(⟨"id1", "a", "ab.txt", 3, none, "/p", none⟩ : ServerFile)], f.id ≠ "zz")
    ∧ download_file [⟨"id1", "a", "ab.txt", 3, none, "/p", none⟩] "zz" (fun _ => some [1])
      = ⟨404, some "text/plain; charset=utf-8", none, .text "你要找的文件不存在。"⟩ := by
  have hne : ∀ f ∈ [(⟨"id1", "a", "ab.txt", 3, none, "/p", none⟩ : ServerFile)],
      f.id ≠ "zz" := by decide
  exact ⟨hne, (download_file_spec _ _ _).1 hne⟩

/-- C3 is refuted as literally stated: a download name containing a
control character (here a newline, which sanitize_filename does not
replace and which is not a valid HTTP header value) yields a 200 response
with no Content-Disposition header at all, where the claim requires the
attachment header. -/
theorem c3_disposition_counterexample :
    ((download_file [⟨"id1", "a", "a\nb", 3, none, "/p", none⟩] "id1"
        (fun _ => some [1, 2, 3])).status = 200)
    ∧ (download_file [⟨"id1", "a", "a\nb", 3, none, "/p", none⟩] "id1"
        (fun _ => some [1, 2, 3])).contentDisposition
      ≠ some ("attachment; filename=\"" ++ sanitize_filename "a\nb" ++ "\"") := by
  decide

/-! ### Manifest naming rules (C4) -/

theorem normalizeChars_join (sep : Char) (hsep : sep = '/' ∨ sep = '\\') :
    ∀ L : List (List Char),
    normalizeChars (joinChars [sep] L) = normalizeChars (joinChars ['/'] L) := by
  intro L
  induction L with
  | nil => rfl
  | cons x xs ih =>
    cases xs with
    | nil => rfl
    | cons y ys =>
      simp only [joinChars, normalizeChars, List.map_append] at ih ⊢
      rw [ih]
      rcases hsep with rfl | rfl <;> rfl

theorem joinSep_normalize (sep : Char) (hsep : sep = '/' ∨ sep = '\\')
    (comps : List String) :
    normalizeSeps (joinSep sep comps) = normalizeSeps (joinSep '/' comps) := by
  simp only [normalizeSeps, joinSep]
  rw [normalizeChars_join sep hsep]

/-- Naming-relevant projection of a manifest entry: display name, download
name and size. -/
def entryShape (f : ServerFile) : String × String × Nat :=
  (f.display_name, f.download_name, f.size)

/-- The entry shapes the claim predicts for one input: one entry with
display name = download name = leaf name for a regular file, and one
entry per walked file of a directory, with display name
label/relative-path (forward slashes) and download name the leaf of the
walked file. -/
def specEntriesForInput : RawInput → List (String × String × Nat)
  | .unreadable _ _ => []
  | .resolved _ leaf (.file sz) => [(leaf, leaf, sz)]
  | .resolved _ leaf (.dir es) =>
    (walkList [] es).map (fun pr =>
      (leaf ++ "/" ++ normalizeSeps (joinSep '/' pr.1), pr.1.getLastD "", pr.2))

theorem stampWalk_shape (sep : Char) (hsep : sep = '/' ∨ sep = '\\')
    (mimeOf : String → Option String) (canon label : String) :
    ∀ (walked : List (List String × Nat)) (n : Nat),
    (stampWalk sep mimeOf canon label n walked).map entryShape
      = walked.map (fun pr =>
          (label ++ "/" ++ normalizeSeps (joinSep '/' pr.1), pr.1.getLastD "", pr.2)) := by
  intro walked
  induction walked with
  | nil => intro n; rfl
  | cons pr rest ih =>
    intro n
    simp only [stampWalk, List.map_cons, ih, List.cons.injEq, and_true]
    simp [entryShape, mkWalkEntry, joinSep_normalize sep hsep]

theorem buildLoop_shape (sep : Char) (hsep : sep = '/' ∨ sep = '\\')
    (mimeOf : String → Option String) :
    ∀ (inputs : List RawInput) (acc : List ServerFile) (n : Nat)
      (res : List ServerFile) (n1 : Nat),
    buildLoop sep mimeOf inputs acc n = .ok (res, n1) →
    res.map entryShape = acc.map entryShape ++ inputs.flatMap specEntriesForInput := by
  intro inputs
  induction inputs with
  | nil =>
    intro acc n res n1 h
    simp only [buildLoop, Except.ok.injEq, Prod.mk.injEq] at h
    rw [← h.1]
    simp
  | cons i rest ih =>
    intro acc n res n1 h
    cases i with
    | unreadable raw ioErr => simp [buildLoop] at h
    | resolved canon leaf tree =>
      cases tree with
      | file sz =>
        have h2 := ih (acc ++ [mkFileEntry mimeOf canon leaf sz n]) (n + 1) res n1 h
        rw [h2]
        simp [specEntriesForInput, entryShape, mkFileEntry, List.append_assoc]
      | dir es =>
        have h2 := ih (acc ++ stampWalk sep mimeOf canon leaf n (walkList [] es))
          (n + (walkList [] es).length) res n1 h
        rw [h2]
        simp only [List.map_append, stampWalk_shape sep hsep,
          List.flatMap_cons, specEntriesForInput, List.append_assoc]

/-- C4: manifest naming rules — on every successful build, the emitted
entries are exactly (in order and multiplicity) one entry per regular
file input with display name = download name = the leaf file name, and
one entry per regular file found by the recursive walk of each directory
input, with display name directoryLabel/relativePath where the relative
path uses forward-slash separators regardless of the host separator
convention, and download name the file leaf name. -/
theorem build_naming (sep : Char) (hsep : sep = '/' ∨ sep = '\\')
    (mimeOf : String → Option String) (inputs : List RawInput) (n0 n1 : Nat)
    (entries : List ServerFile)
    (h : build_server_files sep mimeOf inputs n0 = .ok (entries, n1)) :
    entries.map entryShape = inputs.flatMap specEntriesForInput := by
  rw [build_server_files] at h
  rcases hb : buildLoop sep mimeOf inputs [] n0 with e | ⟨res, n2⟩
  · rw [hb] at h
    simp at h
  · rw [hb] at h
    have h2 : (if res.isEmpty = true then
        (Except.error "所选项目中没有可分享的文件。" : Except String (List ServerFile × Nat))
      else .ok (res, n2)) = .ok (entries, n1) := h
    by_cases hres : res.isEmpty
    · rw [if_pos hres] at h2
      simp at h2
    · rw [if_neg hres] at h2
      simp only [Except.ok.injEq, Prod.mk.injEq] at h2
      rw [← h2.1]
      simpa using buildLoop_shape sep hsep mimeOf inputs [] n0 res n2 hb

theorem build_naming_witness :
    (build_server_files '/' (fun _ => none)
      [.resolved "/h/docs" "docs"
        (.dir [("readme.txt", .file 5), ("sub", .dir [("note.txt", .file 7)])])] 0
      = Except.ok ([⟨"uuid-0", "docs/readme.txt", "readme.txt", 5, some "txt",
                "/h/docs/readme.txt", none⟩,
              ⟨"uuid-1", "docs/sub/note.txt", "note.txt", 7, some "txt",
                "/h/docs/sub/note.txt", none⟩], 2))
    ∧ List.map entryShape
        [⟨"uuid-0", "docs/readme.txt", "readme.txt", 5, some "txt",
           "/h/docs/readme.txt", none⟩,
         ⟨"uuid-1", "docs/sub/note.txt", "note.txt", 7, some "txt",
           "/h/docs/sub/note.txt", none⟩]
      = ([RawInput.resolved "/h/docs" "docs"
            (.dir [("readme.txt", .file 5), ("sub", .dir [("note.txt", .file 7)])])]).flatMap
          specEntriesForInput := by
  refine ⟨by decide, ?_⟩
  exact build_naming '/' (Or.inl rfl) (fun _ => none) _ 0 2 _ (by decide)

/-! ### Index page escaping (C10) -/

/-- The HTML character entity substitution as the claim words it: the
characters lt, gt, double quote, apostrophe and ampersand are replaced by
their HTML character entities; every other character stands for itself. -/
def htmlEntitySpec (c : Char) : String :=
  if c = '<' then "&lt;" else if c = '>' then "&gt;" else if c = '"' then "&quot;"
  else if c = '\'' then "&#39;" else if c = '&' then "&amp;" else chStr c

theorem escape_char_eq (c : Char) :
    (match c with
      | '<' => "&lt;"
      | '>' => "&gt;"
      | '"' => "&quot;"
      | '\'' => "&#39;"
      | '&' => "&amp;"
      | c => chStr c) = htmlEntitySpec c := by
  unfold htmlEntitySpec
  split
  · rfl
  · rfl
  · rfl
  · rfl
  · rfl
  · rename_i h1 h2 h3 h4 h5
    rw [if_neg h1, if_neg h2, if_neg h3, if_neg h4, if_neg h5]

theorem entity_no_specials (c0 c : Char) (hmem : c ∈ (htmlEntitySpec c0).data) :
    c ≠ '<' ∧ c ≠ '>' ∧ c ≠ '"' ∧ c ≠ '\'' := by
  unfold htmlEntitySpec at hmem
  split_ifs at hmem with h1 h2 h3 h4 h5
  · simp at hmem
    rcases hmem with rfl | rfl | rfl | rfl <;> decide
  · simp at hmem
    rcases hmem with rfl | rfl | rfl | rfl <;> decide
  · simp at hmem
    rcases hmem with rfl | rfl | rfl | rfl | rfl | rfl <;> decide
  · simp at hmem
    rcases hmem with rfl | rfl | rfl | rfl | rfl <;> decide
  · simp at hmem
    rcases hmem with rfl | rfl | rfl | rfl | rfl <;> decide
  · simp [chStr] at hmem
    subst hmem
    exact ⟨h1, h2, h3, h4⟩

theorem mem_foldl_append (l : List String) : ∀ (a : String) (c : Char),
    c ∈ (l.foldl (fun acc s => acc ++ s) a).data →
    c ∈ a.data ∨ ∃ s ∈ l, c ∈ s.data := by
  induction l with
  | nil => intro a c hc; exact Or.inl hc
  | cons x xs ih =>
    intro a c hc
    rcases ih (a ++ x) c hc with h | ⟨s, hs, hcs⟩
    · rw [data_append] at h
      rcases List.mem_append.mp h with h | h
      · exact Or.inl h
      · exact Or.inr ⟨x, List.mem_cons_self x xs, h⟩
    · exact Or.inr ⟨s, List.mem_cons_of_mem x hs, hcs⟩

theorem mem_join_data (l : List String) (c : Char) (hc : c ∈ (String.join l).data) :
    ∃ s ∈ l, c ∈ s.data := by
  rcases mem_foldl_append l "" c hc with h | h
  · simp at h
  · exact h

/-- C10: the HTML index page renders every display name and description
through escape_html, which substitutes exactly the HTML character
entities of the claim for the characters lt, gt, double quote, apostrophe
and ampersand, so the escaped text contains none of the raw markup
characters lt, gt, double quote or apostrophe and no file name can inject
markup into the page. -/
theorem escape_html_spec :
    (∀ s : String, escape_html s = String.join (s.data.map htmlEntitySpec))
    ∧ (∀ s : String, ∀ c ∈ (escape_html s).data,
        c ≠ '<' ∧ c ≠ '>' ∧ c ≠ '"' ∧ c ≠ '\'')
    ∧ (∀ fsz files, file_list_markup fsz files = String.join (files.map (fileCard fsz))) := by
  have heq : ∀ s : String, escape_html s = String.join (s.data.map htmlEntitySpec) := by
    intro s
    unfold escape_html
    exact congrArg String.join (List.map_congr_left (fun c _ => escape_char_eq c))
  refine ⟨heq, ?_, fun fsz files => rfl⟩
  intro s c hc
  rw [heq] at hc
  rcases mem_join_data _ c hc with ⟨t, ht, hct⟩
  rcases List.mem_map.mp ht with ⟨c0, _, rfl⟩
  exact entity_no_specials c0 c hct

theorem escape_html_spec_witness :
    '&' ∈ (escape_html "<").data
    ∧ ('&' ≠ '<' ∧ '&' ≠ '>' ∧ '&' ≠ '"' ∧ '&' ≠ '\'')
    ∧ escape_html "<a" = String.join ("<a".data.map htmlEntitySpec) := by
  exact ⟨by decide, escape_html_spec.2.1 "<" '&' (by decide), escape_html_spec.1 "<a"⟩

end FileShare
